import Mathlib

/-
Shallow embedding of the core of `PresetGenerator.py` (an automated
synthesizer-preset exploration harness) together with theorems settling the
specification claims about it.

Conventions of the embedding:
* Python `bytes([x])` construction, which raises `ValueError` outside 0..255,
  is modelled by `Option`: `none` is the raised exception.
* The CSV trial log is modelled as `Option (List TrialRow)`: `none` is an
  absent file, `some rows` the parsed data rows (the header is implicit).
* Python dicts with string keys (as produced by `{str(k): v for ...}`) keep
  insertion order, so they are modelled as association lists in insertion
  order; `json.dumps` is modelled by `dumps` below, `json.dumps(...,
  sort_keys=True)` by `dumpsSorted`.
* Wall-clock randomness, audio-device behaviour and timestamps are oracles:
  an `Attempt` record carries the values `random.choice` returns and the
  success/silence outcomes of the two recordings; timestamps are `String`
  inputs.
* Device and file side effects of one attempt are reified as an `Event`
  trace in execution order, so ordering claims (I/O before/after the
  deduplication gate, artifact deletion, log appends) are statements about
  the trace.
-/

namespace PresetGen

/-! ## ProtocolEncoder: `ParameterController.set_param_value`

`bytes([x])` demands `0 ≤ x ≤ 255`; `mkByte` returns `none` (the
`ValueError`) outside that range.  The leading command byte, the ASCII
encoding of the letter s, is 115. -/

def mkByte (x : ℤ) : Option ℤ :=
  if 0 ≤ x ∧ x ≤ 255 then some x else none

def set_param_value (param_num value : ℤ) : Option (List ℤ) :=
  if param_num ≤ 254 then
    match mkByte param_num, mkByte value with
    | some b1, some b2 => some [115, b1, b2]
    | _, _ => none
  else
    match mkByte 255, mkByte (param_num - 255), mkByte value with
    | some b1, some b2, some b3 => some [115, b1, b2, b3]
    | _, _, _ => none

/-! ## JSON serialization of a parameter dict

`param_dict = {str(k): v for k, v in selected_values.items()}` is a Python
dict with string keys in insertion order; it is modelled as an association
list.  `dumps` is `json.dumps(param_dict)` (insertion order, default
separators `", "` and `": "`); `dumpsSorted` is
`json.dumps(param_dict, sort_keys=True)`.  Python sorts keys by code point,
modelled by `charListLt` on the characters of the key. -/

def charListLt : List Char → List Char → Bool
  | [], [] => false
  | [], _ :: _ => true
  | _ :: _, [] => false
  | a :: as, b :: bs =>
    if a.val < b.val then true
    else if b.val < a.val then false
    else charListLt as bs

def strLt (a b : String) : Bool := charListLt a.data b.data

def dumpsPair (kv : String × ℤ) : String :=
  "\"" ++ kv.1 ++ "\": " ++ toString kv.2

def dumps (l : List (String × ℤ)) : String :=
  "\x7b" ++ String.intercalate (", ") (l.map dumpsPair) ++ "\x7d"

def insertKey (kv : String × ℤ) : List (String × ℤ) → List (String × ℤ)
  | [] => [kv]
  | x :: xs => if strLt kv.1 x.1 then kv :: x :: xs else x :: insertKey kv xs

def sortKeys (l : List (String × ℤ)) : List (String × ℤ) :=
  l.foldr insertKey []

def dumpsSorted (l : List (String × ℤ)) : String :=
  dumps (sortKeys l)

/-! ## TrialStore: `DataManager`

One data row of the trial-log CSV.  `index` is the parse result of
`int()` applied to the index column (`none` when the field is missing or
unparseable, which the code skips); `parameters` is the `row.get` lookup of
the parameters column (`none` when the column is missing; the code also
skips the empty string). -/

structure TrialRow where
  index : Option ℤ
  timestamp : String
  parameters : Option String
deriving DecidableEq

/-- Model of `DataManager.load_existing_param_jsons`: collect the `parameters` field
of every row that has a truthy one into the tried-set (modelled as a list,
with membership as the set test). -/
def load_existing_param_jsons (log : Option (List TrialRow)) : List String :=
  match log with
  | none => []
  | some rows => rows.foldr
      (fun r acc =>
        match r.parameters with
        | some s => if s = "" then acc else s :: acc
        | none => acc)
      []

/-- One iteration of the `get_last_sample_index` scan: keep the running
maximum, skipping rows whose `index` does not parse. -/
def lastIndexStep (last_index : ℤ) (r : TrialRow) : ℤ :=
  match r.index with
  | some idx => if last_index < idx then idx else last_index
  | none => last_index

/-- Model of `DataManager.get_last_sample_index`: the maximum parseable `index` over
all rows, `-1` for an absent file or when no row parses. -/
def get_last_sample_index (log : Option (List TrialRow)) : ℤ :=
  match log with
  | none => -1
  | some rows => rows.foldl lastIndexStep (-1)

/-- Model of `DataManager.save_test_result`: create the file (header only) when
absent, then append one row `{index, timestamp, parameters=json.dumps(param_dict)}`.
Note: no `sort_keys=True` here — the row stores the insertion-order dump. -/
def save_test_result (log : Option (List TrialRow)) (sample_index : ℤ)
    (param_dict : List (String × ℤ)) (ts : String) : List TrialRow :=
  (log.getD []) ++ [⟨some sample_index, ts, some (dumps param_dict)⟩]

/-! ## ExplorationLoop: `ParameterTester`

Device and filesystem side effects of one attempt, in execution order. -/

inductive Event where
  | setParam (p v : ℤ)
  | recordNotes (file : String)
  | reset
  | deleteFile (file : String)
  | recordFile (file : String)
  | appendRow (idx : ℤ)
deriving DecidableEq

/-- Oracles for one attempt: the values `random.choice` picks per parameter
id, and the outcomes of the probe recording (`record_with_midi_notes`
success), the silence check, and the evidence recording
(`record_with_midi_file` raising no exception). -/
structure Attempt where
  choices : ℤ → ℤ
  recordOk : Bool
  silent : Bool
  evidenceOk : Bool

structure StepResult where
  ok : Bool
  tried : List String
  log : Option (List TrialRow)
  trace : List Event

/-- The candidate assignment: one chosen value per parameter of the spec, in
spec (insertion) order. -/
def sampledValues (specs : List (ℤ × List ℤ)) (choices : ℤ → ℤ) :
    List (ℤ × ℤ) :=
  specs.map (fun pv => (pv.1, choices pv.1))

/-- The dict comprehension mapping `str(k)` to `v` over the selected values. -/
def paramDict (sel : List (ℤ × ℤ)) : List (String × ℤ) :=
  sel.map (fun kv => (toString kv.1, kv.2))

/-- The canonical (keys-sorted JSON) form the deduplication gate computes for
the sampled candidate. -/
def canonicalJson (specs : List (ℤ × List ℤ)) (choices : ℤ → ℤ) : String :=
  dumpsSorted (paramDict (sampledValues specs choices))

/-- Model of `ParameterTester.process_single_test`.  Faithful control flow: the
set-commands are transmitted inside the sampling loop, BEFORE the
deduplication check; the canonical form is added to the tried-set right
after that check, BEFORE the probe recording; on silence the probe artifact
is deleted and the attempt rejected; only the full success path appends to
the log.  Serial transmission itself is assumed not to raise. -/
def process_single_test (specs : List (ℤ × List ℤ)) (a : Attempt)
    (tried_params : List String) (log : Option (List TrialRow))
    (sample_index : ℤ) (ts : String) : StepResult :=
  let sel := sampledValues specs a.choices
  let setEvents := sel.map (fun pv => Event.setParam pv.1 pv.2)
  let param_dict := paramDict sel
  let params_json := dumpsSorted param_dict
  if params_json ∈ tried_params then
    ⟨false, tried_params, log, setEvents⟩
  else
    let tried1 := tried_params ++ [params_json]
    let wav_filename := toString sample_index ++ ".wav"
    if a.recordOk = false then
      ⟨false, tried1, log, setEvents ++ [Event.recordNotes wav_filename]⟩
    else if a.silent then
      ⟨false, tried1, log,
        setEvents ++ [Event.recordNotes wav_filename, Event.reset,
          Event.deleteFile wav_filename]⟩
    else
      let test_filename := toString sample_index ++ "_test.wav"
      if a.evidenceOk = false then
        ⟨false, tried1, log,
          setEvents ++ [Event.recordNotes wav_filename, Event.reset,
            Event.recordFile test_filename]⟩
      else
        ⟨true, tried1,
          some (save_test_result log sample_index param_dict ts),
          setEvents ++ [Event.recordNotes wav_filename, Event.reset,
            Event.recordFile test_filename, Event.reset,
            Event.appendRow sample_index]⟩

structure RunState where
  tried : List String
  log : Option (List TrialRow)
  idx : ℤ
  trace : List Event

/-- The `while` body of `ParameterTester.run_tests`, over a list of attempt
oracles (each with its timestamp): the sample index advances only on an
accepted attempt. -/
def runLoop (specs : List (ℤ × List ℤ)) :
    List (Attempt × String) → RunState → RunState
  | [], st => st
  | (a, ts) :: rest, st =>
    let r := process_single_test specs a st.tried st.log st.idx ts
    runLoop specs rest
      { tried := r.tried, log := r.log,
        idx := if r.ok then st.idx + 1 else st.idx,
        trace := st.trace ++ r.trace }

structure RunResult where
  final : RunState
  summary : ℤ
  interrupted : Bool

/-- Model of `ParameterTester.run_tests`: seed the tried-set from the log, resume at
`get_last_sample_index + 1`, loop.  The wall-clock deadline is modelled by
the attempt list ending; a `KeyboardInterrupt` after `n` completed attempts
(`interruptAfter = some n`) truncates the list and is caught, after which
the `finally` block runs either way.  `summary` is the number reported by
the final `Processed ... samples` message: the final value of
`sample_index`. -/
def run_tests (specs : List (ℤ × List ℤ)) (log0 : Option (List TrialRow))
    (attempts : List (Attempt × String)) (interruptAfter : Option ℕ) :
    RunResult :=
  let tried0 := load_existing_param_jsons log0
  let idx0 := get_last_sample_index log0 + 1
  let atts := match interruptAfter with
    | none => attempts
    | some n => attempts.take n
  let fin := runLoop specs atts ⟨tried0, log0, idx0, []⟩
  ⟨fin, fin.idx, interruptAfter.isSome⟩

/-! ## SilenceFilter: `AudioRecorder.is_audio_silent`

`sf.read` is modelled by the `Option (List ℝ)` input: `none` is a raised
read exception, which the `except` branch turns into `False` (non-silent).
`rms` is `np.sqrt(np.mean(np.square(data)))` over the flattened samples.
On an empty capture the numpy mean is NaN and `nan < threshold` is `False`;
the total `/` of Lean would return 0 there, so the empty case is excluded
explicitly by the `data ≠ []` conjunct rather than through the formula. -/

/-- Relation holding when `np.sqrt(np.mean(np.square(data)))` is `r`
(stated relationally so the development stays free of noncomputable
real-valued functions). -/
def rmsIs (data : List ℝ) (r : ℝ) : Prop :=
  Real.sqrt ((data.map (fun x => x ^ 2)).sum / (data.length : ℝ)) = r

def is_audio_silent (data : Option (List ℝ)) (threshold : ℝ) : Prop :=
  match data with
  | none => False
  | some d => d ≠ [] ∧
      Real.sqrt ((d.map (fun x => x ^ 2)).sum / (d.length : ℝ)) < threshold

/-! ## PlaybackSynchronizer: `AudioRecorder.record_with_midi_file`

The MIDI file is modelled by the list of wall-clock offsets (from
`start_time`) at which `mid.play()` yields its successive messages, in
order; `out.send` is instantaneous.  `playLoop events duration now` is the
`for msg in mid.play()` loop entered at elapsed time `now`: each message is
sent at its offset, and after each send the loop breaks iff
`time.time() - start_time > duration`.  `record_with_midi_file` returns the
total elapsed time after the trailing `time.sleep(duration - elapsed)`
top-up. -/

def playLoop : List ℚ → ℚ → ℚ → ℚ
  | [], _, now => now
  | e :: rest, duration, _ => if duration < e then e else playLoop rest duration e

def record_with_midi_file (events : List ℚ) (duration : ℚ) : ℚ :=
  let elapsed := playLoop events duration 0
  if elapsed < duration then duration else elapsed

/-! ## Concrete inputs used by the claim theorems -/

/-- A two-parameter spec whose stringified ids sort differently from their
insertion order: `sorted(["2", "10"]) = ["10", "2"]`. -/
def specsTwoTen : List (ℤ × List ℤ) := [(2, [170]), (10, [0])]

def choicesTwoTen : ℤ → ℤ := fun p => if p = 2 then 170 else 0

/-- An attempt that records fine and is not silent. -/
def attemptLoud : Attempt := ⟨choicesTwoTen, true, false, true⟩

/-- An attempt whose probe comes back silent. -/
def attemptSilent : Attempt := ⟨choicesTwoTen, true, true, true⟩

/-- The insertion-order JSON that `save_test_result` actually writes for the
sampled `specsTwoTen` assignment. -/
def writtenJsonTwoTen : String :=
  dumps (paramDict (sampledValues specsTwoTen choicesTwoTen))

/-- First run: fresh log, accept the assignment at index 0. -/
def runOneStep : StepResult :=
  process_single_test specsTwoTen attemptLoud [] none 0 ("t0")

/-- Restarted run: tried-set reloaded from the log of the first run, same sampled
assignment, next index 1. -/
def runTwoStep : StepResult :=
  process_single_test specsTwoTen attemptLoud
    (load_existing_param_jsons runOneStep.log) runOneStep.log 1 ("t1")

/-- A log whose rows carry indices 0, 1, 2. -/
def logRows012 : Option (List TrialRow) :=
  some [⟨some 0, "a", some ("x")⟩, ⟨some 1, "b", some ("y")⟩,
    ⟨some 2, "c", some ("z")⟩]

/-- A log with one malformed row (unparseable index, skipped on load) and
one row of index 4: two prior rows, resumption index 5. -/
def logWithGap : Option (List TrialRow) :=
  some [⟨none, "a", some ("x")⟩, ⟨some 4, "b", some ("y")⟩]

end PresetGen

open PresetGen

/-! ## Shared helper lemmas

These are shared by several claim theorems; no claim theorem is used in the
proof of another. -/

theorem set_param_value_small (p v : ℤ) (hp0 : 0 ≤ p) (hp : p ≤ 254)
    (hv0 : 0 ≤ v) (hv : v ≤ 255) :
    set_param_value p v = some [115, p, v] := by
  unfold set_param_value mkByte
  rw [if_pos hp, if_pos (show 0 ≤ p ∧ p ≤ 255 by omega),
    if_pos (show 0 ≤ v ∧ v ≤ 255 from ⟨hv0, hv⟩)]

theorem set_param_value_large (p v : ℤ) (hp0 : 255 ≤ p) (hp : p ≤ 510)
    (hv0 : 0 ≤ v) (hv : v ≤ 255) :
    set_param_value p v = some [115, 255, p - 255, v] := by
  unfold set_param_value mkByte
  rw [if_neg (show ¬ p ≤ 254 by omega),
    if_pos (show (0 : ℤ) ≤ 255 ∧ (255 : ℤ) ≤ 255 by norm_num),
    if_pos (show 0 ≤ p - 255 ∧ p - 255 ≤ 255 by omega),
    if_pos (show 0 ≤ v ∧ v ≤ 255 from ⟨hv0, hv⟩)]

/-- Claim C3: for `0 ≤ parameter_id ≤ 254` and `0 ≤ value ≤ 255` the set
command is exactly the 3 bytes `[115, parameter_id, value]`; for
`parameter_id ≥ 255` inside the encodable domain (`parameter_id ≤ 510`) it is
exactly the 4 bytes `[115, 255, parameter_id - 255, value]`; the encodings at
`parameter_id = 254` and `parameter_id = 255` have different lengths. -/
theorem C3_set_command_encoding :
    (∀ p v : ℤ, 0 ≤ p → p ≤ 254 → 0 ≤ v → v ≤ 255 →
      set_param_value p v = some [115, p, v]) ∧
    (∀ p v : ℤ, 255 ≤ p → p ≤ 510 → 0 ≤ v → v ≤ 255 →
      set_param_value p v = some [115, 255, p - 255, v]) ∧
    (∀ v : ℤ, 0 ≤ v → v ≤ 255 →
      ∃ e1 e2 : List ℤ, set_param_value 254 v = some e1 ∧
        set_param_value 255 v = some e2 ∧
        e1.length = 3 ∧ e2.length = 4) := by
  refine ⟨set_param_value_small, set_param_value_large, ?_⟩
  intro v hv0 hv
  refine ⟨[115, 254, v], [115, 255, 0, v], ?_, ?_, rfl, rfl⟩
  · exact set_param_value_small 254 v (by norm_num) (by norm_num) hv0 hv
  · have h := set_param_value_large 255 v (by norm_num) (by norm_num) hv0 hv
    norm_num at h
    exact h

/-- Claim C3, witness: the theorem applied at `parameter_id = 7, 300` and
`value = 9`. -/
theorem C3_set_command_encoding_witness :
    set_param_value 7 9 = some [115, 7, 9] ∧
    set_param_value 300 9 = some [115, 255, 45, 9] ∧
    ∃ e1 e2 : List ℤ, set_param_value 254 9 = some e1 ∧
      set_param_value 255 9 = some e2 ∧
      e1.length = 3 ∧ e2.length = 4 := by
  refine ⟨C3_set_command_encoding.1 7 9 (by norm_num) (by norm_num)
      (by norm_num) (by norm_num), ?_,
    C3_set_command_encoding.2.2 9 (by norm_num) (by norm_num)⟩
  have h := C3_set_command_encoding.2.1 300 9 (by norm_num) (by norm_num)
    (by norm_num) (by norm_num)
  norm_num at h
  exact h

/-- Claim C4, counterexample: the claim asserts totality for every
`parameter_id` in `0..65535`, but at `parameter_id = 511` (and any larger
value) the second byte `parameter_id - 255 = 256` does not fit in a byte and
byte construction fails (`bytes([256])` raises `ValueError`). -/
theorem C4_counterexample_param_511 :
    set_param_value 511 0 = none ∧
    (0 : ℤ) ≤ 511 ∧ (511 : ℤ) ≤ 65535 := by
  refine ⟨?_, by norm_num, by norm_num⟩
  decide

/-- Claim C4, amended: the set-command encoder is total over
`parameter_id ∈ 0..510` and `value ∈ 0..255`: byte construction succeeds and
returns a byte sequence. (The two-level escape encoding caps the addressable
identifier space at `255 + 255 = 510`, not 65535.) -/
theorem C4_encoder_total_on_0_510 (p v : ℤ)
    (hp0 : 0 ≤ p) (hp : p ≤ 510) (hv0 : 0 ≤ v) (hv : v ≤ 255) :
    ∃ bs : List ℤ, set_param_value p v = some bs := by
  by_cases hsmall : p ≤ 254
  · exact ⟨[115, p, v], set_param_value_small p v hp0 hsmall hv0 hv⟩
  · exact ⟨[115, 255, p - 255, v],
      set_param_value_large p v (by omega) hp hv0 hv⟩

/-- Claim C4, witness: the amended theorem applied at `parameter_id = 510`,
`value = 255`. -/
theorem C4_encoder_total_witness :
    ∃ bs : List ℤ, set_param_value 510 255 = some bs :=
  C4_encoder_total_on_0_510 510 255 (by norm_num) (by norm_num) (by norm_num)
    (by norm_num)

theorem lastIndexStep_le_self (init : ℤ) (r : TrialRow) :
    init ≤ lastIndexStep init r := by
  unfold lastIndexStep
  cases r.index with
  | none => exact le_refl _
  | some i =>
    dsimp only
    split <;> omega

theorem foldl_lastIndexStep_le_init (rows : List TrialRow) (init : ℤ) :
    init ≤ rows.foldl lastIndexStep init := by
  induction rows generalizing init with
  | nil => exact le_refl _
  | cons a t ih =>
    simp only [List.foldl_cons]
    exact le_trans (lastIndexStep_le_self init a) (ih (lastIndexStep init a))

theorem foldl_lastIndexStep_bound (rows : List TrialRow) (init : ℤ)
    (r : TrialRow) (i : ℤ) (hr : r ∈ rows) (hi : r.index = some i) :
    i ≤ rows.foldl lastIndexStep init := by
  induction rows generalizing init with
  | nil => cases hr
  | cons a t ih =>
    simp only [List.foldl_cons]
    rcases List.mem_cons.mp hr with h | h
    · subst h
      refine le_trans ?_ (foldl_lastIndexStep_le_init t (lastIndexStep init r))
      unfold lastIndexStep
      rw [hi]
      dsimp only
      split <;> omega
    · exact ih (lastIndexStep init a) h

theorem foldl_lastIndexStep_attained (rows : List TrialRow) (init : ℤ) :
    rows.foldl lastIndexStep init = init ∨
      ∃ r ∈ rows, r.index = some (rows.foldl lastIndexStep init) := by
  induction rows generalizing init with
  | nil => exact Or.inl rfl
  | cons a t ih =>
    simp only [List.foldl_cons]
    rcases ih (lastIndexStep init a) with h | ⟨r, hr, hi⟩
    · rw [h]
      unfold lastIndexStep
      cases ha : a.index with
      | none => exact Or.inl rfl
      | some i =>
        dsimp only
        by_cases hlt : init < i
        · rw [if_pos hlt]
          exact Or.inr ⟨a, List.mem_cons_self a t, ha⟩
        · rw [if_neg hlt]
          exact Or.inl rfl
    · exact Or.inr ⟨r, List.mem_cons_of_mem a hr, hi⟩

theorem process_single_test_dup (specs : List (ℤ × List ℤ)) (a : Attempt)
    (tried_params : List String) (log : Option (List TrialRow))
    (sample_index : ℤ) (ts : String)
    (h : canonicalJson specs a.choices ∈ tried_params) :
    process_single_test specs a tried_params log sample_index ts =
      ⟨false, tried_params, log,
        (sampledValues specs a.choices).map
          (fun pv => Event.setParam pv.1 pv.2)⟩ := by
  unfold canonicalJson at h
  simp [process_single_test, h]

theorem process_single_test_accept (specs : List (ℤ × List ℤ)) (a : Attempt)
    (tried_params : List String) (log : Option (List TrialRow))
    (sample_index : ℤ) (ts : String)
    (h : canonicalJson specs a.choices ∉ tried_params)
    (hr : a.recordOk = true) (hs : a.silent = false)
    (he : a.evidenceOk = true) :
    process_single_test specs a tried_params log sample_index ts =
      ⟨true, tried_params ++ [canonicalJson specs a.choices],
        some (save_test_result log sample_index
          (paramDict (sampledValues specs a.choices)) ts),
        (sampledValues specs a.choices).map
          (fun pv => Event.setParam pv.1 pv.2) ++
          [Event.recordNotes (toString sample_index ++ ".wav"), Event.reset,
            Event.recordFile (toString sample_index ++ "_test.wav"),
            Event.reset, Event.appendRow sample_index]⟩ := by
  unfold canonicalJson at h
  simp [process_single_test, canonicalJson, h, hr, hs, he]

theorem process_single_test_silent (specs : List (ℤ × List ℤ)) (a : Attempt)
    (tried_params : List String) (log : Option (List TrialRow))
    (sample_index : ℤ) (ts : String)
    (h : canonicalJson specs a.choices ∉ tried_params)
    (hr : a.recordOk = true) (hs : a.silent = true) :
    process_single_test specs a tried_params log sample_index ts =
      ⟨false, tried_params ++ [canonicalJson specs a.choices], log,
        (sampledValues specs a.choices).map
          (fun pv => Event.setParam pv.1 pv.2) ++
          [Event.recordNotes (toString sample_index ++ ".wav"), Event.reset,
            Event.deleteFile (toString sample_index ++ ".wav")]⟩ := by
  unfold canonicalJson at h
  simp [process_single_test, canonicalJson, h, hr, hs]

/-- Claim C6: `get_last_sample_index` over a log with rows of index
`{0, 1, 2}` is 2 and the next index `run_tests` resumes at is 3; over an
absent or empty log it is -1 and the next index is 0; in general every
parseable index is bounded by the result, and the result is -1 or is the
index of some row (hence the maximum parseable index). -/
theorem C6_resumption_index :
    get_last_sample_index none = -1 ∧
    get_last_sample_index (some []) = -1 ∧
    (∀ (rows : List TrialRow) (r : TrialRow) (i : ℤ), r ∈ rows →
      r.index = some i → i ≤ get_last_sample_index (some rows)) ∧
    (∀ rows : List TrialRow, get_last_sample_index (some rows) = -1 ∨
      ∃ r ∈ rows, r.index = some (get_last_sample_index (some rows))) ∧
    (∀ (specs : List (ℤ × List ℤ)) (log0 : Option (List TrialRow))
      (intr : Option ℕ), (run_tests specs log0 [] intr).summary =
        get_last_sample_index log0 + 1) ∧
    get_last_sample_index logRows012 = 2 ∧
    (∀ specs : List (ℤ × List ℤ),
      (run_tests specs logRows012 [] none).summary = 3) ∧
    (∀ specs : List (ℤ × List ℤ),
      (run_tests specs none [] none).summary = 0) := by
  refine ⟨rfl, rfl, ?_, ?_, ?_, by decide, fun specs => rfl, fun specs => rfl⟩
  · intro rows r i hr hi
    exact foldl_lastIndexStep_bound rows (-1) r i hr hi
  · intro rows
    exact foldl_lastIndexStep_attained rows (-1)
  · intro specs log0 intr
    cases intr with
    | none => rfl
    | some n => simp [run_tests, runLoop, List.take_nil]

/-- Claim C6, witness: the theorem applied to a one-row log of index 5 and
to the empty attempt list. -/
theorem C6_resumption_index_witness :
    (5 : ℤ) ≤ get_last_sample_index (some [⟨some 5, ("w"), some ("p")⟩]) ∧
    (get_last_sample_index (some [⟨some 5, ("w"), some ("p")⟩]) = -1 ∨
      ∃ r ∈ [(⟨some 5, ("w"), some ("p")⟩ : TrialRow)],
        r.index = some (get_last_sample_index
          (some [⟨some 5, ("w"), some ("p")⟩]))) ∧
    (run_tests [] (some [⟨some 5, ("w"), some ("p")⟩]) [] none).summary =
      get_last_sample_index (some [⟨some 5, ("w"), some ("p")⟩]) + 1 :=
  ⟨C6_resumption_index.2.2.1 _ _ 5 (List.mem_singleton_self _) rfl,
    C6_resumption_index.2.2.2.1 _,
    C6_resumption_index.2.2.2.2.1 [] _ none⟩

/-- Claim C1 (refuted; bug in the code): `save_test_result` serializes with
`json.dumps(param_dict)` while the deduplication gate uses
`json.dumps(param_dict, sort_keys=True)`, and a Python dict over stringified
ids `2, 10` iterates in insertion order `"2", "10"` whereas sorted order is
`"10", "2"`.  Evaluated on `specsTwoTen`: the first run accepts the
assignment and logs the insertion-order form; after a restart the reloaded
tried-set does not contain the canonical form, so the very same assignment
is accepted again at index 1 — two log rows with identical parameters. -/
theorem C1_persisted_form_not_canonical :
    runOneStep.ok = true ∧
    writtenJsonTwoTen ≠ canonicalJson specsTwoTen choicesTwoTen ∧
    load_existing_param_jsons runOneStep.log = [writtenJsonTwoTen] ∧
    canonicalJson specsTwoTen choicesTwoTen ∉
      load_existing_param_jsons runOneStep.log ∧
    runTwoStep.ok = true ∧
    runTwoStep.log = some
      [⟨some 0, ("t0"), some writtenJsonTwoTen⟩,
        ⟨some 1, ("t1"), some writtenJsonTwoTen⟩] := by
  decide

/-- Claim C2, counterexample: a duplicate candidate is indeed rejected, but
device I/O has already happened — the set-commands are transmitted inside
the sampling loop, before the deduplication check.  At a concrete duplicate
submission the trace of the rejected attempt contains a set-command event. -/
theorem C2_counterexample_io_before_dedup :
    (process_single_test specsTwoTen attemptLoud
      [canonicalJson specsTwoTen choicesTwoTen] none 0 ("t0")).ok = false ∧
    Event.setParam 2 170 ∈ (process_single_test specsTwoTen attemptLoud
      [canonicalJson specsTwoTen choicesTwoTen] none 0 ("t0")).trace := by
  decide

/-- Claim C2, amended: a candidate whose canonical form is already in the
tried set is rejected AFTER the set-commands have been transmitted but
before any recording, index consumption or log append: the attempt returns
false, the tried-set and log are unchanged, and its whole trace is exactly
the set-command transmissions; and submitting the same assignment twice
(accepted once, then resampled) leaves exactly one new row in the log. -/
theorem C2_amended_duplicate_gate :
    (∀ (specs : List (ℤ × List ℤ)) (a : Attempt) (tried_params : List String)
      (log : Option (List TrialRow)) (sample_index : ℤ) (ts : String),
      canonicalJson specs a.choices ∈ tried_params →
      (process_single_test specs a tried_params log sample_index ts).ok
          = false ∧
        (process_single_test specs a tried_params log sample_index ts).tried
          = tried_params ∧
        (process_single_test specs a tried_params log sample_index ts).log
          = log ∧
        (process_single_test specs a tried_params log sample_index ts).trace
          = (sampledValues specs a.choices).map
              (fun pv => Event.setParam pv.1 pv.2)) ∧
    (∀ (specs : List (ℤ × List ℤ)) (a : Attempt) (tried_params : List String)
      (log : Option (List TrialRow)) (sample_index : ℤ) (ts1 ts2 : String),
      canonicalJson specs a.choices ∉ tried_params →
      a.recordOk = true → a.silent = false → a.evidenceOk = true →
      (((runLoop specs [(a, ts1), (a, ts2)]
          ⟨tried_params, log, sample_index, []⟩).log).getD []).length =
        (log.getD []).length + 1) := by
  constructor
  · intro specs a tried_params log sample_index ts h
    rw [process_single_test_dup specs a tried_params log sample_index ts h]
    exact ⟨rfl, rfl, rfl, rfl⟩
  · intro specs a tried_params log sample_index ts1 ts2 h hr hs he
    have hmem : canonicalJson specs a.choices ∈
        tried_params ++ [canonicalJson specs a.choices] :=
      List.mem_append_right _ (List.mem_singleton_self _)
    simp only [runLoop]
    rw [process_single_test_accept specs a tried_params log sample_index ts1
      h hr hs he]
    simp only [runLoop, if_true]
    rw [process_single_test_dup specs a
      (tried_params ++ [canonicalJson specs a.choices])
      (some (save_test_result log sample_index
        (paramDict (sampledValues specs a.choices)) ts1))
      (sample_index + 1) ts2 hmem]
    simp [save_test_result]

/-- Claim C2, witness: the amended theorem applied at `specsTwoTen` — the
duplicate branch at a seeded tried-set, and the accept-then-duplicate pair
on a fresh log. -/
theorem C2_amended_duplicate_gate_witness :
    ((process_single_test specsTwoTen attemptLoud
        [canonicalJson specsTwoTen choicesTwoTen] none 0 ("t0")).ok = false ∧
      (process_single_test specsTwoTen attemptLoud
        [canonicalJson specsTwoTen choicesTwoTen] none 0 ("t0")).tried
          = [canonicalJson specsTwoTen choicesTwoTen] ∧
      (process_single_test specsTwoTen attemptLoud
        [canonicalJson specsTwoTen choicesTwoTen] none 0 ("t0")).log
          = none ∧
      (process_single_test specsTwoTen attemptLoud
        [canonicalJson specsTwoTen choicesTwoTen] none 0 ("t0")).trace
          = (sampledValues specsTwoTen attemptLoud.choices).map
              (fun pv => Event.setParam pv.1 pv.2)) ∧
    (((runLoop specsTwoTen [(attemptLoud, ("t0")), (attemptLoud, ("t1"))]
        ⟨[], none, 0, []⟩).log).getD []).length = 1 :=
  ⟨C2_amended_duplicate_gate.1 specsTwoTen attemptLoud
      [canonicalJson specsTwoTen choicesTwoTen] none 0 ("t0")
      (List.mem_singleton_self _),
    C2_amended_duplicate_gate.2 specsTwoTen attemptLoud [] none 0
      ("t0") ("t1") (by decide) rfl rfl rfl⟩

/-- Claim C7, counterexample: on a silent rejection the probe artifact is
deleted, no index is consumed and no row is appended — but the canonical
assignment is NOT added only at the Accept step: `tried_params.add` runs
right after the deduplication gate, so the rejected attempt leaves the
canonical form in the tried-set.  Concretely, a silent attempt on an empty
tried-set ends with the canonical form in it. -/
theorem C7_counterexample_tried_set_updated_early :
    (process_single_test specsTwoTen attemptSilent [] none 0 ("t0")).ok
      = false ∧
    (process_single_test specsTwoTen attemptSilent [] none 0 ("t0")).log
      = none ∧
    Event.deleteFile ("0.wav") ∈
      (process_single_test specsTwoTen attemptSilent [] none 0 ("t0")).trace ∧
    canonicalJson specsTwoTen choicesTwoTen ∈
      (process_single_test specsTwoTen attemptSilent [] none 0 ("t0")).tried := by
  decide

/-- Claim C7, amended: on every `RejectedSilent` attempt the probe artifact
is deleted, the trial index is not advanced and no row reaches the log —
but the canonical assignment is added to the in-memory tried-set right
after the deduplication gate (before probing), not at the Accept step, so
the rejected attempt leaves it in the tried-set. -/
theorem C7_amended_silent_rejection_frame :
    ∀ (specs : List (ℤ × List ℤ)) (a : Attempt) (tried_params : List String)
      (log : Option (List TrialRow)) (sample_index : ℤ) (ts : String)
      (tr0 : List Event),
      canonicalJson specs a.choices ∉ tried_params →
      a.recordOk = true → a.silent = true →
      (process_single_test specs a tried_params log sample_index ts).ok
          = false ∧
        (process_single_test specs a tried_params log sample_index ts).log
          = log ∧
        (process_single_test specs a tried_params log sample_index ts).trace
          = (sampledValues specs a.choices).map
              (fun pv => Event.setParam pv.1 pv.2) ++
              [Event.recordNotes (toString sample_index ++ ".wav"),
                Event.reset,
                Event.deleteFile (toString sample_index ++ ".wav")] ∧
        (∀ i : ℤ, Event.appendRow i ∉
          (process_single_test specs a tried_params log sample_index ts).trace) ∧
        (process_single_test specs a tried_params log sample_index ts).tried
          = tried_params ++ [canonicalJson specs a.choices] ∧
        (runLoop specs [(a, ts)] ⟨tried_params, log, sample_index, tr0⟩).idx
          = sample_index := by
  intro specs a tried_params log sample_index ts tr0 h hr hs
  have hp := process_single_test_silent specs a tried_params log sample_index
    ts h hr hs
  refine ⟨by rw [hp], by rw [hp], by rw [hp], ?_, by rw [hp], ?_⟩
  · intro i
    rw [hp]
    simp
  · simp only [runLoop]
    rw [hp]
    simp [runLoop]

/-- Claim C7, witness: the amended theorem applied to a concrete silent
attempt on an empty tried-set with pending index 0. -/
theorem C7_amended_silent_rejection_frame_witness :
    (process_single_test specsTwoTen attemptSilent [] none 0 ("t0")).ok
        = false ∧
      (process_single_test specsTwoTen attemptSilent [] none 0 ("t0")).log
        = none ∧
      (process_single_test specsTwoTen attemptSilent [] none 0 ("t0")).trace
        = (sampledValues specsTwoTen attemptSilent.choices).map
            (fun pv => Event.setParam pv.1 pv.2) ++
            [Event.recordNotes (toString (0 : ℤ) ++ ".wav"), Event.reset,
              Event.deleteFile (toString (0 : ℤ) ++ ".wav")] ∧
      (∀ i : ℤ, Event.appendRow i ∉
        (process_single_test specsTwoTen attemptSilent [] none 0 ("t0")).trace) ∧
      (process_single_test specsTwoTen attemptSilent [] none 0 ("t0")).tried
        = [] ++ [canonicalJson specsTwoTen attemptSilent.choices] ∧
      (runLoop specsTwoTen [(attemptSilent, ("t0"))] ⟨[], none, 0, []⟩).idx
        = 0 :=
  C7_amended_silent_rejection_frame specsTwoTen attemptSilent [] none 0
    ("t0") [] (by decide) rfl rfl

/-- Claim C10 (implicit): when reading the captured audio file fails,
`is_audio_silent` returns false (the `except` branch), i.e. a read error is
classified as non-silent; consequently an attempt whose silence check comes
back false proceeds to acceptance — the evidence recording runs, the row is
appended, and the probe artifact is not deleted. -/
theorem C10_read_error_classified_nonsilent :
    (∀ threshold : ℝ, ¬ is_audio_silent none threshold) ∧
    (∀ (specs : List (ℤ × List ℤ)) (a : Attempt) (tried_params : List String)
      (log : Option (List TrialRow)) (sample_index : ℤ) (ts : String),
      canonicalJson specs a.choices ∉ tried_params →
      a.recordOk = true → a.silent = false → a.evidenceOk = true →
      (process_single_test specs a tried_params log sample_index ts).ok
          = true ∧
        Event.appendRow sample_index ∈
          (process_single_test specs a tried_params log sample_index ts).trace ∧
        Event.deleteFile (toString sample_index ++ ".wav") ∉
          (process_single_test specs a tried_params log sample_index ts).trace) := by
  constructor
  · intro threshold h
    exact h
  · intro specs a tried_params log sample_index ts h hr hs he
    have hp := process_single_test_accept specs a tried_params log
      sample_index ts h hr hs he
    refine ⟨by rw [hp], ?_, ?_⟩
    · rw [hp]
      simp
    · rw [hp]
      simp

/-- Claim C10, witness: the theorem applied at threshold 0.01 and at a
concrete non-silent attempt. -/
theorem C10_read_error_classified_nonsilent_witness :
    (¬ is_audio_silent none 0.01) ∧
    (process_single_test specsTwoTen attemptLoud [] none 0 ("t0")).ok
        = true ∧
      Event.appendRow 0 ∈
        (process_single_test specsTwoTen attemptLoud [] none 0 ("t0")).trace ∧
      Event.deleteFile (toString (0 : ℤ) ++ ".wav") ∉
        (process_single_test specsTwoTen attemptLoud [] none 0 ("t0")).trace :=
  ⟨C10_read_error_classified_nonsilent.1 0.01,
    C10_read_error_classified_nonsilent.2 specsTwoTen attemptLoud [] none 0
      ("t0") (by decide) rfl rfl rfl⟩

/-- Claim C5: for a nonempty buffer the classifier returns true iff the RMS
amplitude over all samples is strictly below the threshold; every nonempty
all-zero buffer is silent at any positive threshold; a buffer whose RMS
equals the threshold exactly is non-silent. -/
theorem C5_silence_classifier :
    (∀ (d : List ℝ) (threshold r : ℝ), d ≠ [] → rmsIs d r →
      (is_audio_silent (some d) threshold ↔ r < threshold)) ∧
    (∀ (d : List ℝ) (threshold : ℝ), d ≠ [] → (∀ x ∈ d, x = 0) →
      0 < threshold → is_audio_silent (some d) threshold) ∧
    (∀ (d : List ℝ) (threshold : ℝ), rmsIs d threshold →
      ¬ is_audio_silent (some d) threshold) := by
  refine ⟨?_, ?_, ?_⟩
  · intro d threshold r hne hr
    unfold rmsIs at hr
    show d ≠ [] ∧ _ ↔ _
    rw [hr]
    exact ⟨fun h => h.2, fun h => ⟨hne, h⟩⟩
  · intro d threshold hne hz ht
    refine ⟨hne, ?_⟩
    have hsum : (d.map (fun x => x ^ 2)).sum = 0 := by
      apply List.sum_eq_zero
      intro y hy
      rcases List.mem_map.mp hy with ⟨x, hx, rfl⟩
      rw [hz x hx]
      ring
    rw [hsum, zero_div, Real.sqrt_zero]
    exact ht
  · intro d threshold hr hsil
    rcases hsil with ⟨hne, hlt⟩
    unfold rmsIs at hr
    rw [hr] at hlt
    exact lt_irrefl threshold hlt

/-- Claim C5, witness: `[0, 0]` is silent at threshold 1; `[1, 1]` has RMS
exactly 1, is non-silent at threshold 1, and is silent at threshold 2. -/
theorem C5_silence_classifier_witness :
    is_audio_silent (some [(0 : ℝ), 0]) 1 ∧
    is_audio_silent (some [(1 : ℝ), 1]) 2 ∧
    ¬ is_audio_silent (some [(1 : ℝ), 1]) 1 := by
  have hrms : rmsIs [(1 : ℝ), 1] 1 := by
    unfold rmsIs
    norm_num
  refine ⟨?_, ?_, ?_⟩
  · exact C5_silence_classifier.2.1 [0, 0] 1 (by simp) (by
      intro x hx
      rcases List.mem_cons.mp hx with h | h
      · exact h
      · simpa using h) one_pos
  · exact (C5_silence_classifier.1 [1, 1] 2 1 (by simp) hrms).mpr one_lt_two
  · exact C5_silence_classifier.2.2 [1, 1] 1 hrms

theorem playLoop_le : ∀ (events : List ℚ) (duration now : ℚ),
    now ≤ duration → (∀ e ∈ events, e ≤ duration) →
    playLoop events duration now ≤ duration
  | [], _, _, hn, _ => hn
  | e :: rest, duration, now, _, h => by
    simp only [playLoop]
    have he := h e (List.mem_cons_self e rest)
    rw [if_neg (not_lt.mpr he)]
    exact playLoop_le rest duration e he
      (fun x hx => h x (List.mem_cons_of_mem e hx))

theorem playLoop_break : ∀ (pre post : List ℚ) (e duration now : ℚ),
    (∀ x ∈ pre, x ≤ duration) → duration < e →
    playLoop (pre ++ e :: post) duration now = e
  | [], _, _, _, _, _, he => by
    simp only [List.nil_append, playLoop, if_pos he]
  | a :: pre, post, e, duration, now, h, he => by
    simp only [List.cons_append, playLoop]
    rw [if_neg (not_lt.mpr (h a (List.mem_cons_self a pre)))]
    exact playLoop_break pre post e duration a
      (fun x hx => h x (List.mem_cons_of_mem a hx)) he

/-- Claim C9: the elapsed time of file-playback mode is always at least the
requested duration `D`; when every file event falls within `D` (the file
finishes first) the residual sleep makes the elapsed time exactly `D`; and
event iteration aborts at the first event past the deadline — events after
it never play. -/
theorem C9_playback_deadline_exact :
    (∀ (events : List ℚ) (duration : ℚ),
      duration ≤ record_with_midi_file events duration) ∧
    (∀ (events : List ℚ) (duration : ℚ), 0 ≤ duration →
      (∀ e ∈ events, e ≤ duration) →
      record_with_midi_file events duration = duration) ∧
    (∀ (pre post : List ℚ) (e duration : ℚ), (∀ x ∈ pre, x ≤ duration) →
      duration < e →
      playLoop (pre ++ e :: post) duration 0 = e ∧
      record_with_midi_file (pre ++ e :: post) duration = e) := by
  refine ⟨?_, ?_, ?_⟩
  · intro events duration
    simp only [record_with_midi_file]
    by_cases h : playLoop events duration 0 < duration
    · rw [if_pos h]
    · rw [if_neg h]
      exact le_of_not_lt h
  · intro events duration h0 h
    simp only [record_with_midi_file]
    have hle := playLoop_le events duration 0 h0 h
    by_cases hlt : playLoop events duration 0 < duration
    · rw [if_pos hlt]
    · rw [if_neg hlt]
      exact le_antisymm hle (le_of_not_lt hlt)
  · intro pre post e duration h he
    have hbreak := playLoop_break pre post e duration 0 h he
    refine ⟨hbreak, ?_⟩
    simp only [record_with_midi_file, hbreak]
    rw [if_neg (not_lt.mpr (le_of_lt he))]

/-- Claim C9, witness: with events at offsets 1 and 2 and deadline 5 the
elapsed time is exactly 5; with events 1, 7, 9 and deadline 5 iteration
stops at the event at offset 7 and the elapsed time is 7 ≥ 5. -/
theorem C9_playback_deadline_exact_witness :
    (5 : ℚ) ≤ record_with_midi_file [1, 2] 5 ∧
    record_with_midi_file [1, 2] 5 = 5 ∧
    playLoop ([1] ++ 7 :: [9]) 5 0 = 7 ∧
    record_with_midi_file ([1] ++ 7 :: [9]) 5 = 7 :=
  ⟨C9_playback_deadline_exact.1 [1, 2] 5,
    C9_playback_deadline_exact.2.1 [1, 2] 5 (by norm_num) (by
      intro x hx
      rcases List.mem_cons.mp hx with h | h
      · rw [h]; norm_num
      · simp only [List.mem_singleton] at h
        rw [h]; norm_num),
    (C9_playback_deadline_exact.2.2 [1] [9] 7 5 (by
      intro x hx
      simp only [List.mem_singleton] at hx
      rw [hx]; norm_num) (by norm_num)).1,
    (C9_playback_deadline_exact.2.2 [1] [9] 7 5 (by
      intro x hx
      simp only [List.mem_singleton] at hx
      rw [hx]; norm_num) (by norm_num)).2⟩

theorem process_single_test_log_cases (specs : List (ℤ × List ℤ))
    (a : Attempt) (tried_params : List String) (log : Option (List TrialRow))
    (sample_index : ℤ) (ts : String) :
    ((process_single_test specs a tried_params log sample_index ts).ok
        = false ∧
      (process_single_test specs a tried_params log sample_index ts).log
        = log) ∨
    ((process_single_test specs a tried_params log sample_index ts).ok
        = true ∧
      ∃ row : TrialRow,
        (process_single_test specs a tried_params log sample_index ts).log
          = some ((log.getD []) ++ [row])) := by
  simp only [process_single_test]
  split
  · exact Or.inl ⟨rfl, rfl⟩
  · split
    · exact Or.inl ⟨rfl, rfl⟩
    · split
      · exact Or.inl ⟨rfl, rfl⟩
      · split
        · exact Or.inl ⟨rfl, rfl⟩
        · exact Or.inr ⟨rfl, _, rfl⟩

theorem runLoop_log_growth (specs : List (ℤ × List ℤ)) :
    ∀ (atts : List (Attempt × String)) (st : RunState),
      ∃ newRows : List TrialRow,
        ((runLoop specs atts st).log).getD [] = (st.log.getD []) ++ newRows ∧
        ((newRows.length : ℤ) = (runLoop specs atts st).idx - st.idx)
  | [], st => ⟨[], by simp [runLoop], by simp [runLoop]⟩
  | (a, ts) :: rest, st => by
    simp only [runLoop]
    rcases process_single_test_log_cases specs a st.tried st.log st.idx ts
      with ⟨hok, hlog⟩ | ⟨hok, row, hlog⟩
    · rcases runLoop_log_growth specs rest
        ⟨(process_single_test specs a st.tried st.log st.idx ts).tried,
          (process_single_test specs a st.tried st.log st.idx ts).log,
          if (process_single_test specs a st.tried st.log st.idx ts).ok
            then st.idx + 1 else st.idx,
          st.trace ++
            (process_single_test specs a st.tried st.log st.idx ts).trace⟩
        with ⟨newRows, h1, h2⟩
      refine ⟨newRows, ?_, ?_⟩
      · rw [h1]
        dsimp only
        rw [hlog]
      · rw [h2]
        dsimp only
        rw [hok]
        simp
    · rcases runLoop_log_growth specs rest
        ⟨(process_single_test specs a st.tried st.log st.idx ts).tried,
          (process_single_test specs a st.tried st.log st.idx ts).log,
          if (process_single_test specs a st.tried st.log st.idx ts).ok
            then st.idx + 1 else st.idx,
          st.trace ++
            (process_single_test specs a st.tried st.log st.idx ts).trace⟩
        with ⟨newRows, h1, h2⟩
      refine ⟨row :: newRows, ?_, ?_⟩
      · rw [h1]
        dsimp only
        rw [hlog]
        simp
      · rw [List.length_cons]
        push_cast
        rw [h2]
        dsimp only
        rw [hok]
        simp
        ring

/-- Claim C8, counterexample: the final summary reports the final value of
`sample_index` ("Processed ... samples"), not the count of accepted trials
(nor any elapsed time).  Resuming on `logWithGap` (two prior rows, one with
an unparseable index, maximum index 4) and interrupting before any attempt,
the summary says 5 while zero trials were accepted in this run and the log
holds 2 rows. -/
theorem C8_counterexample_summary_is_index :
    (run_tests [] logWithGap [] (some 0)).summary = 5 ∧
    ((run_tests [] logWithGap [] (some 0)).final.log.getD []).length = 2 ∧
    (5 : ℤ) ≠ 2 ∧ (5 : ℤ) ≠ 0 := by
  decide

/-- Claim C8, amended: on both termination paths — deadline (the attempt
list runs out) and `KeyboardInterrupt` after `n` completed attempts — the
run ends identically except for the interruption flag, the final summary is
produced and reports the final `sample_index` (the resumption index plus the
number of trials accepted in this run, with no elapsed time), and the log
grows append-only by exactly one complete row per accepted trial: no
partial record reaches it. -/
theorem C8_amended_graceful_termination :
    (∀ (specs : List (ℤ × List ℤ)) (log0 : Option (List TrialRow))
      (attempts : List (Attempt × String)) (n : ℕ),
      (run_tests specs log0 attempts (some n)).final =
        (run_tests specs log0 (attempts.take n) none).final ∧
      (run_tests specs log0 attempts (some n)).interrupted = true ∧
      (run_tests specs log0 attempts none).interrupted = false) ∧
    (∀ (specs : List (ℤ × List ℤ)) (log0 : Option (List TrialRow))
      (attempts : List (Attempt × String)) (intr : Option ℕ),
      (run_tests specs log0 attempts intr).summary =
        (run_tests specs log0 attempts intr).final.idx) ∧
    (∀ (specs : List (ℤ × List ℤ)) (log0 : Option (List TrialRow))
      (attempts : List (Attempt × String)) (intr : Option ℕ),
      ∃ newRows : List TrialRow,
        ((run_tests specs log0 attempts intr).final.log).getD []
            = (log0.getD []) ++ newRows ∧
          (newRows.length : ℤ) =
            (run_tests specs log0 attempts intr).summary -
              (get_last_sample_index log0 + 1)) := by
  refine ⟨fun specs log0 attempts n => ⟨rfl, rfl, rfl⟩,
    fun specs log0 attempts intr => ?_, fun specs log0 attempts intr => ?_⟩
  · cases intr <;> rfl
  · cases intr with
    | none =>
      rcases runLoop_log_growth specs attempts
        ⟨load_existing_param_jsons log0, log0,
          get_last_sample_index log0 + 1, []⟩ with ⟨newRows, h1, h2⟩
      exact ⟨newRows, h1, h2⟩
    | some n =>
      rcases runLoop_log_growth specs (attempts.take n)
        ⟨load_existing_param_jsons log0, log0,
          get_last_sample_index log0 + 1, []⟩ with ⟨newRows, h1, h2⟩
      exact ⟨newRows, h1, h2⟩
